import Mathlib

/-!
Shallow embedding of the mini-coding-agent core (skill ranking and selection,
tool runtime, agent loop) together with proofs about the properties the
specification states.

Numeric scores are modelled as rationals (the JavaScript source uses IEEE
doubles; every claim here is about comparisons and order, which the rational
model mirrors).  External platform primitives (the filesystem, the shell,
`JSON.parse`, the LLM backend) are modelled as explicit oracle parameters; the
repository code itself is translated definition by definition.
-/

namespace MiniAgent

/-! String helpers mirroring the JavaScript string primitives used by the
source (`toLowerCase`, `includes`, `startsWith`, `endsWith`, `trim`,
splitting).  They are written over `List Char` so that concrete evaluations
reduce inside the kernel. -/

def strToLower (s : String) : String :=
  String.mk (s.toList.map Char.toLower)

def listIncludes (hay needle : List Char) : Bool :=
  hay.tails.any (fun t => needle.isPrefixOf t)

/-- Model of JavaScript `hay.includes(needle)` (substring containment). -/
def strIncludes (hay needle : String) : Bool :=
  listIncludes hay.toList needle.toList

/-- Model of JavaScript `s.startsWith(p)`. -/
def strStartsWith (s p : String) : Bool :=
  p.toList.isPrefixOf s.toList

/-- Model of JavaScript `s.endsWith(p)`. -/
def strEndsWith (s p : String) : Bool :=
  p.toList.isSuffixOf s.toList

/-- Model of JavaScript `s.trim()`. -/
def strTrim (s : String) : String :=
  String.mk (((s.toList.dropWhile Char.isWhitespace).reverse.dropWhile Char.isWhitespace).reverse)

def splitOnCharAux (c : Char) : List Char → List Char → List (List Char)
  | [], acc => [acc.reverse]
  | x :: xs, acc =>
    if x = c then acc.reverse :: splitOnCharAux c xs []
    else splitOnCharAux c xs (x :: acc)

def splitOnChar (c : Char) (l : List Char) : List (List Char) :=
  splitOnCharAux c l []

/-- Kernel-reducible model of JavaScript `Math.min` on rationals. -/
def qmin (a b : ℚ) : ℚ := if a ≤ b then a else b

/-- Kernel-reducible model of JavaScript `Math.max` on rationals. -/
def qmax (a b : ℚ) : ℚ := if a ≤ b then b else a

theorem qmin_eq_min (a b : ℚ) : qmin a b = min a b := (min_def a b).symm

theorem qmax_eq_max (a b : ℚ) : qmax a b = max a b := (max_def a b).symm

/-! Relevance Ranker (source: skill-match module). -/

/-- Stop-word set, verbatim from the source. -/
def STOPWORDS : List String :=
  ["a", "an", "and", "are", "be", "but", "can", "do", "for", "from",
   "generate", "get", "how", "i", "in", "is", "it", "make", "me", "my",
   "of", "on", "please", "the", "then", "to", "what", "with", "you"]

/-- Characters kept by the source regex replacement `[^a-z0-9]+ -> " "`
(applied after lower-casing). -/
def isTokenChar (c : Char) : Bool :=
  ('a' ≤ c && c ≤ 'z') || ('0' ≤ c && c ≤ '9')

/-- Source `tokenize`: lower-case, replace non-alphanumeric runs by spaces,
split on whitespace, drop empties and stop words. -/
def tokenize (s : String) : List String :=
  let replaced := (s.toList.map Char.toLower).map (fun c => if isTokenChar c then c else ' ')
  (((splitOnChar ' ' replaced).filter (fun t => t ≠ [])).map (fun l => String.mk l)).filter
    (fun t => ¬ STOPWORDS.contains t)

/-- Source `jaccard` over the two token sets. -/
def jaccard (a b : Finset String) : ℚ :=
  if a.card = 0 ∨ b.card = 0 then 0
  else ((a ∩ b).card : ℚ) / (((a.card + b.card - (a ∩ b).card : ℕ) : ℚ))

structure Skill where
  name : String
  title : String
  description : String
  allowedTools : List String
  markdown : String
  deriving DecidableEq, Repr

def promptTokens (prompt : String) : Finset String :=
  (tokenize prompt).toFinset

def skillTokens (skill : Skill) : Finset String :=
  (tokenize (skill.name ++ " " ++ skill.title ++ " " ++ skill.description)).toFinset

/-- Base lexical-overlap term of `heuristicScore`. -/
def jaccardTerm (prompt : String) (skill : Skill) : ℚ :=
  jaccard (promptTokens prompt) (skillTokens skill)

/-- The +0.25 bonus when the lower-cased prompt contains the (truthy) skill
name as a substring. -/
def nameBonus (prompt : String) (skill : Skill) : ℚ :=
  if skill.name ≠ "" ∧ strIncludes (strToLower prompt) skill.name then 1/4 else 0

/-- The per-token bonuses of the source loop: +0.05 per shared token of
length ≥ 7 and +0.10 per prompt token of length ≥ 4 contained in the skill
name. -/
def tokenBonuses (prompt : String) (skill : Skill) : ℚ :=
  Finset.sum (promptTokens prompt) (fun t =>
    (if 7 ≤ t.length ∧ t ∈ skillTokens skill then (1/20 : ℚ) else 0) +
    (if skill.name ≠ "" ∧ strIncludes (strToLower skill.name) t = true ∧ 4 ≤ t.length
      then (1/10 : ℚ) else 0))

/-- Source `heuristicScore`: Jaccard base plus bonuses, clamped at 1. -/
def heuristicScore (prompt : String) (skill : Skill) : ℚ :=
  qmin 1 (jaccardTerm prompt skill + nameBonus prompt skill + tokenBonuses prompt skill)

structure ScoredCandidate where
  skill : Skill
  score : ℚ
  deriving DecidableEq, Repr

/-- Comparator of the source `sort((a, b) => b.score - a.score)`: `a` may come
before `b` when `b.score ≤ a.score`.  JavaScript `Array.sort` is stable, and a
stable sort for a total preorder has a unique output, so the stable
`insertionSort` used below produces exactly the source ordering. -/
def scoreGE (a b : ScoredCandidate) : Prop :=
  b.score ≤ a.score

instance : DecidableRel scoreGE := fun a b => inferInstanceAs (Decidable (b.score ≤ a.score))

structure RankResult where
  scored : List ScoredCandidate
  best : ℚ
  topCandidates : List ScoredCandidate
  deriving DecidableEq, Repr

/-- The adaptive shortlist threshold `Math.max(0.12, best * 0.6)`. -/
def shortlistThreshold (best : ℚ) : ℚ :=
  qmax (12/100) (best * (6/10))

/-- Source `rankSkillsForPrompt`: score every skill, sort descending (stable),
read off the best score, and keep the at-most-8 candidates above the adaptive
threshold. -/
def rankSkillsForPrompt (prompt : String) (skills : List Skill) : RankResult :=
  let scored := (skills.map (fun s => ScoredCandidate.mk s (heuristicScore prompt s))).insertionSort scoreGE
  let best := ((scored.head?).map (fun x => x.score)).getD 0
  let topCandidates := (scored.filter (fun x => decide (shortlistThreshold best ≤ x.score))).take 8
  ⟨scored, best, topCandidates⟩

/-! Selection Coordinator (source: `pickSkillsForPrompt`).  The remote Router
call is an external LLM interaction; its outcome enters the coordinator as an
explicit `Option RouterDecision` parameter. -/

inductive MatchMethod where
  | noMatch
  | heuristic
  | router
  deriving DecidableEq, Repr

structure RouterDecision where
  selected : List String
  reason : String
  deriving DecidableEq, Repr

/-- Result record of `pickSkillsForPrompt`.  `matchMethod` is an `Option`
because the source early return for an empty catalog omits the field
entirely. -/
structure PickResult where
  selectedSkills : List Skill
  routerDecision : Option RouterDecision
  matchMethod : Option MatchMethod
  deriving DecidableEq, Repr

/-- JavaScript truthiness of the `apiKey` argument (absent or empty string is
falsy). -/
def truthyKey : Option String → Bool
  | none => false
  | some s => s ≠ ""

/-- Source `pickSkillsForPrompt`.  `routerReply` is what `routeWithClaude`
returned when the router path is taken (`none` models both a thrown-away
malformed reply and any router failure). -/
def pickSkillsForPrompt (prompt : String) (skills : List Skill) (apiKey : Option String)
    (routerReply : Option RouterDecision) : PickResult :=
  if skills.isEmpty then ⟨[], none, none⟩
  else
    let r := rankSkillsForPrompt prompt skills
    let candidateSkills := r.topCandidates.map (fun x => x.skill)
    if candidateSkills.isEmpty ∨ r.best < 12/100 then ⟨[], none, some .noMatch⟩
    else if ¬ truthyKey apiKey then ⟨candidateSkills.take 1, none, some .heuristic⟩
    else
      match routerReply with
      | none => ⟨candidateSkills.take 1, none, some .heuristic⟩
      | some rd =>
          ⟨candidateSkills.filter (fun s => rd.selected.contains s.name), some rd, some .router⟩

/-! Order-theoretic facts about the ranking comparator and helper lemmas
shared by several claim proofs. -/

instance : IsTotal ScoredCandidate scoreGE :=
  ⟨fun a b => le_total b.score a.score⟩

instance : IsTrans ScoredCandidate scoreGE :=
  ⟨fun _ _ _ h1 h2 => le_trans h2 h1⟩

theorem rank_scored_eq (prompt : String) (skills : List Skill) :
    (rankSkillsForPrompt prompt skills).scored =
      (skills.map (fun s => ScoredCandidate.mk s (heuristicScore prompt s))).insertionSort scoreGE :=
  rfl

theorem rank_top_eq (prompt : String) (skills : List Skill) :
    (rankSkillsForPrompt prompt skills).topCandidates =
      ((rankSkillsForPrompt prompt skills).scored.filter
        (fun x => decide (shortlistThreshold (rankSkillsForPrompt prompt skills).best ≤ x.score))).take 8 :=
  rfl

theorem rank_best_eq (prompt : String) (skills : List Skill) :
    (rankSkillsForPrompt prompt skills).best =
      (((rankSkillsForPrompt prompt skills).scored.head?).map (fun x => x.score)).getD 0 :=
  rfl

theorem tokenBonuses_nonneg (prompt : String) (skill : Skill) :
    0 ≤ tokenBonuses prompt skill := by
  unfold tokenBonuses
  refine Finset.sum_nonneg fun t _ => add_nonneg ?_ ?_ <;> positivity

/-- When the best score clears the 0.12 floor, the head of the sorted list
passes the adaptive threshold, so the shortlist is non-empty. -/
theorem topCandidates_ne_nil (prompt : String) (skills : List Skill)
    (hne : skills ≠ []) (hbest : 12/100 ≤ (rankSkillsForPrompt prompt skills).best) :
    (rankSkillsForPrompt prompt skills).topCandidates ≠ [] := by
  have hmap : skills.map (fun s => ScoredCandidate.mk s (heuristicScore prompt s)) ≠ [] := by
    simpa using hne
  have hscored : (rankSkillsForPrompt prompt skills).scored ≠ [] := by
    rw [rank_scored_eq]
    intro h
    exact hmap (List.eq_nil_of_length_eq_zero (by
      simpa [List.length_insertionSort] using congrArg List.length h))
  obtain ⟨x, rest, hx⟩ := List.exists_cons_of_ne_nil hscored
  have hbx : (rankSkillsForPrompt prompt skills).best = x.score := by
    rw [rank_best_eq, hx]; rfl
  have hthr : shortlistThreshold (rankSkillsForPrompt prompt skills).best ≤ x.score := by
    rw [shortlistThreshold, qmax_eq_max, ← hbx]
    refine max_le hbest ?_
    have h0 : (0 : ℚ) ≤ (rankSkillsForPrompt prompt skills).best :=
      le_trans (by norm_num) hbest
    nlinarith
  rw [rank_top_eq, hx]
  simp [List.filter_cons, hthr]

/-- C4 (claim, part): the scored list is non-increasing in score. -/
theorem scored_sorted (prompt : String) (skills : List Skill) :
    (rankSkillsForPrompt prompt skills).scored.Sorted scoreGE := by
  rw [rank_scored_eq]
  exact List.sorted_insertionSort scoreGE _

/-- C4: the scored candidate list is sorted by non-increasing score with ties
keeping the order of the (name-sorted) catalog; the shortlist is the take-8
prefix of the candidates clearing `max(0.12, best * 0.6)`, every shortlist
entry clears that threshold, the shortlist has at most 8 entries, and every
shortlist entry's skill belongs to the catalog. -/
theorem ranker_shortlist_spec (prompt : String) (skills : List Skill) :
    (rankSkillsForPrompt prompt skills).scored.Pairwise (fun a b => b.score ≤ a.score) ∧
    (∀ a b : ScoredCandidate, a.score = b.score →
      List.Sublist [a, b] (skills.map (fun s => ScoredCandidate.mk s (heuristicScore prompt s))) →
      List.Sublist [a, b] (rankSkillsForPrompt prompt skills).scored) ∧
    (rankSkillsForPrompt prompt skills).topCandidates =
      ((rankSkillsForPrompt prompt skills).scored.filter
        (fun x => decide (shortlistThreshold (rankSkillsForPrompt prompt skills).best ≤ x.score))).take 8 ∧
    (∀ x ∈ (rankSkillsForPrompt prompt skills).topCandidates,
      shortlistThreshold (rankSkillsForPrompt prompt skills).best ≤ x.score) ∧
    (rankSkillsForPrompt prompt skills).topCandidates.length ≤ 8 ∧
    (∀ x ∈ (rankSkillsForPrompt prompt skills).topCandidates, x.skill ∈ skills) := by
  refine ⟨scored_sorted prompt skills, ?_, rank_top_eq prompt skills, ?_, ?_, ?_⟩
  · intro a b hab hsub
    rw [rank_scored_eq]
    exact List.pair_sublist_insertionSort (le_of_eq hab.symm) hsub
  · intro x hx
    rw [rank_top_eq] at hx
    have hx' := List.mem_of_mem_take hx
    simpa using (List.of_mem_filter hx')
  · rw [rank_top_eq]
    simp
  · intro x hx
    rw [rank_top_eq] at hx
    have hx' := List.mem_filter.mp (List.mem_of_mem_take hx)
    have hx'' : x ∈ (rankSkillsForPrompt prompt skills).scored := hx'.1
    rw [rank_scored_eq] at hx''
    have hmem : x ∈ skills.map (fun s => ScoredCandidate.mk s (heuristicScore prompt s)) :=
      (List.mem_insertionSort scoreGE).mp hx''
    obtain ⟨s, hs, rfl⟩ := List.mem_map.mp hmem
    exact hs

/-- C3 (amended): for a non-empty catalog whose shortlist is empty or whose
best score is below 0.12, the coordinator returns no skills with method
`noMatch`, for every API-key state and every router reply; for an empty
catalog it returns no skills but omits the method field entirely. -/
theorem coordinator_precision_gate (prompt : String) (skills : List Skill)
    (apiKey : Option String) (reply : Option RouterDecision)
    (hne : skills ≠ [])
    (hgate : (rankSkillsForPrompt prompt skills).topCandidates = [] ∨
      (rankSkillsForPrompt prompt skills).best < 12/100) :
    pickSkillsForPrompt prompt skills apiKey reply = ⟨[], none, some .noMatch⟩ ∧
    pickSkillsForPrompt prompt [] apiKey reply = ⟨[], none, none⟩ := by
  constructor
  · have h1 : skills.isEmpty = false := by simpa [List.isEmpty_iff] using hne
    rcases hgate with h | h
    · simp [pickSkillsForPrompt, h1, h]
    · simp [pickSkillsForPrompt, h1, h]
  · simp [pickSkillsForPrompt]

/-- C3 counterexample: for the empty catalog the source early-returns an
object with no `matchMethod` field at all, so the method is not `none` as the
claim states (the CLI then prints it as "unknown"). -/
theorem coordinator_empty_catalog_cex :
    (pickSkillsForPrompt "make a changelog" [] none none).selectedSkills = [] ∧
    (pickSkillsForPrompt "make a changelog" [] none none).matchMethod ≠ some MatchMethod.noMatch := by
  with_unfolding_all decide

theorem coordinator_precision_gate_witness :
    pickSkillsForPrompt "hello" [⟨"zzz", "", "", [], ""⟩] (some "key") none =
      ⟨[], none, some .noMatch⟩ :=
  (coordinator_precision_gate "hello" [⟨"zzz", "", "", [], ""⟩] (some "key") none
    (by decide) (Or.inr (by with_unfolding_all decide))).1

theorem ranker_shortlist_spec_witness :
    List.Sublist
      [ScoredCandidate.mk ⟨"aaa", "", "", [], ""⟩ 0, ScoredCandidate.mk ⟨"bbb", "", "", [], ""⟩ 0]
      (rankSkillsForPrompt "hello" [⟨"aaa", "", "", [], ""⟩, ⟨"bbb", "", "", [], ""⟩]).scored :=
  (ranker_shortlist_spec "hello" [⟨"aaa", "", "", [], ""⟩, ⟨"bbb", "", "", [], ""⟩]).2.1
    (ScoredCandidate.mk ⟨"aaa", "", "", [], ""⟩ 0) (ScoredCandidate.mk ⟨"bbb", "", "", [], ""⟩ 0)
    rfl (by with_unfolding_all decide)

/-- C5: with the precision gate passed and a truthy API key, a router reply
is filtered against the shortlist: the selected skills are exactly the
shortlist candidates whose names appear in the reply's `selected` array, in
shortlist order, with method `router`; in particular a reply naming no
candidate yields an empty selection. -/
theorem router_whitelist (prompt : String) (skills : List Skill) (apiKey : Option String)
    (rd : RouterDecision) (hne : skills ≠ [])
    (hbest : 12/100 ≤ (rankSkillsForPrompt prompt skills).best)
    (hkey : truthyKey apiKey = true) :
    pickSkillsForPrompt prompt skills apiKey (some rd) =
      ⟨((rankSkillsForPrompt prompt skills).topCandidates.map (fun x => x.skill)).filter
          (fun s => rd.selected.contains s.name), some rd, some .router⟩ ∧
    ((∀ s ∈ (rankSkillsForPrompt prompt skills).topCandidates.map (fun x => x.skill),
        rd.selected.contains s.name = false) →
      (pickSkillsForPrompt prompt skills apiKey (some rd)).selectedSkills = []) := by
  have h1 : skills.isEmpty = false := by simpa [List.isEmpty_iff] using hne
  have h2 : ((rankSkillsForPrompt prompt skills).topCandidates.map (fun x => x.skill)).isEmpty
      = false := by
    have h := topCandidates_ne_nil prompt skills hne hbest
    simp [List.isEmpty_iff, h]
  have h3 : ¬ (rankSkillsForPrompt prompt skills).best < 12/100 := not_lt.mpr hbest
  have hmain : pickSkillsForPrompt prompt skills apiKey (some rd) =
      ⟨((rankSkillsForPrompt prompt skills).topCandidates.map (fun x => x.skill)).filter
          (fun s => rd.selected.contains s.name), some rd, some .router⟩ := by
    simp [pickSkillsForPrompt, h1, h2, h3, hkey]
  refine ⟨hmain, fun hnone => ?_⟩
  rw [hmain]
  simpa [List.filter_eq_nil_iff] using hnone

theorem router_whitelist_witness :
    pickSkillsForPrompt "hello world" [⟨"hello", "", "", [], ""⟩] (some "k")
      (some ⟨["x"], "r"⟩) = ⟨[], some ⟨["x"], "r"⟩, some .router⟩ := by
  have h := (router_whitelist "hello world" [⟨"hello", "", "", [], ""⟩] (some "k")
    ⟨["x"], "r"⟩ (by decide) (by with_unfolding_all decide) (by decide)).1
  rw [h]
  with_unfolding_all decide

/-- C8 counterexample: for the one-skill catalog `foo` and the prompt `foo`
the name appears verbatim in the prompt, yet the score is 1 (the source
clamps at 1) while 0.25 plus the Jaccard term is 1.25, so the claimed lower
bound fails. -/
theorem substring_bonus_cex :
    (rankSkillsForPrompt "foo" [⟨"foo", "", "", [], ""⟩]).scored =
      [⟨⟨"foo", "", "", [], ""⟩, 1⟩] ∧
    strIncludes (strToLower "foo") "foo" = true ∧
    (1 : ℚ) < 1/4 + jaccardTerm "foo" ⟨"foo", "", "", [], ""⟩ := by
  refine ⟨?_, ?_, ?_⟩ <;> with_unfolding_all decide

/-- C8 (amended): when the (non-empty) skill name occurs as a substring of
the lower-cased prompt, the heuristic score is at least the minimum of 1 and
the Jaccard term plus 0.25 (the final score is clamped at 1 by the source). -/
theorem substring_bonus (prompt : String) (sk : Skill)
    (hname : sk.name ≠ "")
    (hsub : strIncludes (strToLower prompt) sk.name = true) :
    min 1 (1/4 + jaccardTerm prompt sk) ≤ heuristicScore prompt sk := by
  unfold heuristicScore
  rw [qmin_eq_min]
  apply min_le_min le_rfl
  have hb : nameBonus prompt sk = 1/4 := by simp [nameBonus, hname, hsub]
  have hnn := tokenBonuses_nonneg prompt sk
  rw [hb]
  linarith

theorem substring_bonus_witness :
    min 1 (1/4 + jaccardTerm "foo quux" ⟨"foo", "bar baz", "", [], ""⟩) ≤
      heuristicScore "foo quux" ⟨"foo", "bar baz", "", [], ""⟩ :=
  substring_bonus "foo quux" ⟨"foo", "bar baz", "", [], ""⟩ (by decide) (by decide)

/-! Tool Runtime (source: tools module).  POSIX path resolution
(`path.resolve` with an absolute first argument, `path.sep = "/"`) is
modelled by segment normalisation; the filesystem, directory listing, glob
matching and the shell are external resources modelled as an explicit
file store plus an `OsOracle`, and every operation records the filesystem
accesses it performs so that "fails before any filesystem access" is a
statement about the recorded access list. -/

/-- Normalise already-split path segments: drop empty and `.` segments, let
`..` pop the previous segment (staying at the root when there is none). -/
def resolveSegs (segs : List String) : List String :=
  segs.foldl (fun acc seg =>
    if seg = "" ∨ seg = "." then acc
    else if seg = ".." then acc.dropLast
    else acc ++ [seg]) []

def splitSegs (s : String) : List String :=
  (splitOnChar '/' s.toList).map (fun l => String.mk l)

/-- Model of Node `path.resolve(root, target)` for an absolute `root` on a
POSIX system. -/
def pathResolve (root target : String) : String :=
  let combined := if strStartsWith target "/" then target else root ++ "/" ++ target
  "/" ++ String.intercalate "/" (resolveSegs (splitSegs combined))

/-- Source `ensureInsideRoot`: resolve against the workspace root and reject
any result that is neither the root itself nor strictly below it. -/
def ensureInsideRoot (rootAbs targetPath : String) : Except String String :=
  let resolved := pathResolve rootAbs targetPath
  let root := if strEndsWith rootAbs "/" then rootAbs else rootAbs ++ "/"
  if resolved = rootAbs then .ok resolved
  else if ¬ strStartsWith resolved root then
    .error ("Path escapes workspace root: " ++ targetPath)
  else .ok resolved

/-- Source `truncate` with its default 200000-character cap. -/
def truncate (s : String) (maxChars : Nat := 200000) : String :=
  if s.length ≤ maxChars then s
  else s.take maxChars ++ "\n\n[truncated to " ++ toString maxChars ++ " chars]\n"

structure ToolDef where
  name : String
  description : String
  deriving DecidableEq, Repr

/-- The fixed tool registry of `buildToolRuntime` (names and descriptions
from the source; the advertised JSON input schemas are inert data consumed
only by the backend and are not part of any claim). -/
def tools : List ToolDef :=
  [⟨"read_file",
    "Read a UTF-8 text file from the current workspace. Use this to inspect existing code or documents. The path must be inside the workspace root."⟩,
   ⟨"write_file",
    "Write a UTF-8 text file in the current workspace. Creates parent directories if needed. Refuses to write outside the workspace root."⟩,
   ⟨"list_dir",
    "List files and folders within a directory in the workspace root. Useful to understand project structure."⟩,
   ⟨"glob",
    "Find files using a glob pattern within the workspace. Pattern is evaluated relative to `cwd` (default workspace root)."⟩,
   ⟨"run_shell",
    "Run a shell command (non-interactive) inside the workspace. Use for git commands, tests, or scaffolding. Default timeout is 30s (max 120s)."⟩]

/-- Source `normalizeAllowedToolName`: trim, resolve community aliases to the
runtime's tool names, pass anything else through, and reject the empty
name. -/
def normalizeAllowedToolName (nm : String) : Option String :=
  let n := strTrim nm
  if n = "" then none
  else
    let alias' := strToLower n
    if alias' = "read" then some "read_file"
    else if alias' = "write" then some "write_file"
    else if alias' = "edit" then some "write_file"
    else if alias' = "ls" ∨ alias' = "list" then some "list_dir"
    else if alias' = "glob" ∨ alias' = "search" then some "glob"
    else if alias' = "bash" ∨ alias' = "shell" ∨ alias' = "terminal" then some "run_shell"
    else some n

/-- First-occurrence deduplication, as JavaScript `[...new Set(xs)]`. -/
def uniqKeepFirst (l : List String) : List String :=
  l.foldl (fun acc x => if x ∈ acc then acc else acc ++ [x]) []

/-- Source `restrictTools`.  `none` models a non-array argument (the source
checks `Array.isArray`); resolving to zero known tools falls back to the full
registry. -/
def restrictTools (allowedTools : Option (List String)) : List ToolDef :=
  match allowedTools with
  | none => tools
  | some l =>
    if l.isEmpty then tools
    else
      let mapped := l.filterMap normalizeAllowedToolName
      let uniq := uniqKeepFirst mapped
      let available := uniq.filterMap (fun n => tools.find? (fun t => t.name = n))
      if available.isEmpty then tools else available

/-! Filesystem model and `executeTool`. -/

structure FS where
  files : List (String × String)
  deriving DecidableEq, Repr

def FS.lookup (fs : FS) (p : String) : Option String :=
  (fs.files.find? (fun e => e.1 = p)).map (fun e => e.2)

def FS.insert (fs : FS) (p content : String) : FS :=
  ⟨(p, content) :: fs.files.filter (fun e => e.1 ≠ p)⟩

inductive FsAccess where
  | readF (p : String)
  | statF (p : String)
  | mkdirF (p : String)
  | writeF (p content : String)
  | readdirF (p : String)
  | globF (cwd : String)
  | shellF (cwd command : String)
  deriving DecidableEq, Repr

/-- Oracle for the external behaviours of directory listing, glob matching
and the shell (entry name with an is-directory flag; match lists; captured
stdout and stderr for a command run with a timeout). -/
structure OsOracle where
  readdir : String → List (String × Bool)
  globMatches : String → String → List String
  shellRun : String → String → Int → String × String

/-- The input object of a tool call, with the optional fields the source
reads off it. -/
structure ToolInput where
  path : Option String := none
  content : Option String := none
  overwrite : Option Bool := none
  pattern : Option String := none
  cwd : Option String := none
  ignore : Option (List String) := none
  timeout_ms : Option Int := none
  command : Option String := none
  deriving DecidableEq, Repr

deriving instance DecidableEq for Except

/-- Outcome of one `executeTool` call: the thrown-or-returned result, the
filesystem afterwards, and the filesystem accesses performed (in order). -/
structure ToolOutcome where
  result : Except String String
  fs : FS
  accesses : List FsAccess
  deriving DecidableEq, Repr

/-- Model of a missing-`path` call: Node `path.resolve(root, undefined)`
throws a `TypeError` before touching the filesystem. -/
def typeErrPath : String := "TypeError: the path argument must be of type string"

/-- Source `executeTool`.  Directory lexicographic order (`localeCompare`) is
modelled by the standard string order; a shell failure surface (non-zero
exit, timeout kill) is part of the oracle's captured output and not needed by
any claim. -/
def executeTool (rootDirAbs : String) (osa : OsOracle) (fs : FS) (nm : String)
    (input : ToolInput) : ToolOutcome :=
  if nm = "read_file" then
    match input.path with
    | none => ⟨.error typeErrPath, fs, []⟩
    | some tp =>
      match ensureInsideRoot rootDirAbs tp with
      | .error e => ⟨.error e, fs, []⟩
      | .ok p =>
        match fs.lookup p with
        | none => ⟨.error ("ENOENT: no such file or directory, open " ++ p), fs, [.readF p]⟩
        | some data => ⟨.ok (truncate data), fs, [.readF p]⟩
  else if nm = "write_file" then
    match input.path with
    | none => ⟨.error typeErrPath, fs, []⟩
    | some tp =>
      match ensureInsideRoot rootDirAbs tp with
      | .error e => ⟨.error e, fs, []⟩
      | .ok p =>
        let content := input.content.getD ""
        if input.overwrite = some false then
          if (fs.lookup p).isSome then
            ⟨.error ("File already exists: " ++ tp), fs, [.statF p]⟩
          else
            ⟨.ok "ok", fs.insert p content,
              [.statF p, .mkdirF (String.intercalate "/" ((splitSegs p).dropLast)),
               .writeF p content]⟩
        else
          ⟨.ok "ok", fs.insert p content,
            [.mkdirF (String.intercalate "/" ((splitSegs p).dropLast)), .writeF p content]⟩
  else if nm = "list_dir" then
    match input.path with
    | none => ⟨.error typeErrPath, fs, []⟩
    | some tp =>
      match ensureInsideRoot rootDirAbs tp with
      | .error e => ⟨.error e, fs, []⟩
      | .ok p =>
        let shown := ((osa.readdir p).map (fun e => if e.2 then e.1 ++ "/" else e.1)).insertionSort
          (fun a b => a ≤ b)
        ⟨.ok (String.intercalate "\n" shown), fs, [.readdirF p]⟩
  else if nm = "glob" then
    let cwdR : Except String String :=
      match input.cwd with
      | some c => if c ≠ "" then ensureInsideRoot rootDirAbs c else .ok rootDirAbs
      | none => .ok rootDirAbs
    match cwdR with
    | .error e => ⟨.error e, fs, []⟩
    | .ok cwd =>
      let pat := input.pattern.getD "undefined"
      ⟨.ok (String.intercalate "\n" (osa.globMatches cwd pat)), fs, [.globF cwd]⟩
  else if nm = "run_shell" then
    let cwdR : Except String String :=
      match input.cwd with
      | some c => if c ≠ "" then ensureInsideRoot rootDirAbs c else .ok rootDirAbs
      | none => .ok rootDirAbs
    match cwdR with
    | .error e => ⟨.error e, fs, []⟩
    | .ok cwd =>
      let command := input.command.getD "undefined"
      let timeoutMsRaw := input.timeout_ms.getD 30000
      let timeout : Int := max 1000 (min 120000 timeoutMsRaw)
      let (out, err) := osa.shellRun cwd command timeout
      let parts := (if out ≠ "" then ["STDOUT:\n" ++ out] else []) ++
        (if err ≠ "" then ["STDERR:\n" ++ err] else [])
      ⟨.ok (truncate (String.intercalate "\n\n" parts)), fs, [.shellF cwd command]⟩
  else ⟨.error ("Unknown tool: " ++ nm), fs, []⟩

/-! Lemmas and claims about the tool runtime. -/

/-- A resolved path that is neither the workspace root nor strictly below it
makes `ensureInsideRoot` throw the path-escape error. -/
theorem ensureInsideRoot_escape (root tp : String)
    (hne : pathResolve root tp ≠ root)
    (hpre : strStartsWith (pathResolve root tp)
      (if strEndsWith root "/" then root else root ++ "/") = false) :
    ensureInsideRoot root tp = .error ("Path escapes workspace root: " ++ tp) := by
  unfold ensureInsideRoot
  simp [hne, hpre]

/-- C1: every path-accepting operation (read_file, write_file, list_dir by
`path`; glob and run_shell by an explicit non-empty `cwd`) resolves its path
against the workspace root, and when the resolved path is neither the root
nor a descendant of it the call fails with the path-escape error, leaves the
file store untouched, and performs no filesystem access at all. -/
theorem sandbox_path_escape (root : String) (osa : OsOracle) (fs : FS)
    (nm : String) (input : ToolInput) (tp c : String) :
    ((nm = "read_file" ∨ nm = "write_file" ∨ nm = "list_dir") → input.path = some tp →
      pathResolve root tp ≠ root →
      strStartsWith (pathResolve root tp)
        (if strEndsWith root "/" then root else root ++ "/") = false →
      executeTool root osa fs nm input =
        ⟨.error ("Path escapes workspace root: " ++ tp), fs, []⟩) ∧
    ((nm = "glob" ∨ nm = "run_shell") → input.cwd = some c → c ≠ "" →
      pathResolve root c ≠ root →
      strStartsWith (pathResolve root c)
        (if strEndsWith root "/" then root else root ++ "/") = false →
      executeTool root osa fs nm input =
        ⟨.error ("Path escapes workspace root: " ++ c), fs, []⟩) := by
  constructor
  · intro hnm hpath hne hpre
    have herr := ensureInsideRoot_escape root tp hne hpre
    rcases hnm with h | h | h <;> subst h <;> simp [executeTool, hpath, herr]
  · intro hnm hcwd hcne hne hpre
    have herr := ensureInsideRoot_escape root c hne hpre
    rcases hnm with h | h <;> subst h <;> simp [executeTool, hcwd, hcne, herr]

theorem sandbox_path_escape_witness :
    executeTool "/work" ⟨fun _ => [], fun _ _ => [], fun _ _ _ => ("", "")⟩ ⟨[]⟩ "read_file"
      { path := some "../outside" } =
      ⟨.error "Path escapes workspace root: ../outside", ⟨[]⟩, []⟩ :=
  (sandbox_path_escape "/work" ⟨fun _ => [], fun _ _ => [], fun _ _ _ => ("", "")⟩ ⟨[]⟩
    "read_file" { path := some "../outside" } "../outside" "").1
    (Or.inl rfl) rfl (by decide) (by decide)

theorem FS.lookup_insert (fs : FS) (p c : String) :
    (fs.insert p c).lookup p = some c := by
  simp [FS.insert, FS.lookup, List.find?]

/-- C9: inside the workspace, writing a file and then reading it back
returns exactly the content written whenever the content is shorter than the
200000-character truncation threshold (no truncation marker is appended). -/
theorem write_read_roundtrip (root : String) (osa : OsOracle) (fs : FS)
    (tp p content : String)
    (hok : ensureInsideRoot root tp = .ok p)
    (hlen : content.length < 200000) :
    (executeTool root osa fs "write_file"
      { path := some tp, content := some content }).result = .ok "ok" ∧
    (executeTool root osa
        (executeTool root osa fs "write_file" { path := some tp, content := some content }).fs
        "read_file" { path := some tp }).result = .ok content := by
  constructor
  · simp [executeTool, hok]
  · simp [executeTool, hok, FS.lookup_insert, truncate, le_of_lt hlen]

theorem write_read_roundtrip_witness :
    (executeTool "/work" ⟨fun _ => [], fun _ _ => [], fun _ _ _ => ("", "")⟩ ⟨[]⟩ "write_file"
      { path := some "notes.txt", content := some "hello" }).result = .ok "ok" ∧
    (executeTool "/work" ⟨fun _ => [], fun _ _ => [], fun _ _ _ => ("", "")⟩
        (executeTool "/work" ⟨fun _ => [], fun _ _ => [], fun _ _ _ => ("", "")⟩ ⟨[]⟩ "write_file"
          { path := some "notes.txt", content := some "hello" }).fs
        "read_file" { path := some "notes.txt" }).result = .ok "hello" :=
  write_read_roundtrip "/work" ⟨fun _ => [], fun _ _ => [], fun _ _ _ => ("", "")⟩ ⟨[]⟩
    "notes.txt" "/work/notes.txt" "hello" (by decide) (by decide)

/-! Allow-list restriction (claim C7). -/

theorem mem_uniqKeepFirst_aux (l : List String) :
    ∀ (acc : List String) (x : String),
      x ∈ l.foldl (fun acc x => if x ∈ acc then acc else acc ++ [x]) acc →
      x ∈ acc ∨ x ∈ l := by
  induction l with
  | nil => intro acc x hx; exact Or.inl hx
  | cons y ys ih =>
    intro acc x hx
    simp only [List.foldl_cons] at hx
    rcases ih _ x hx with h | h
    · by_cases hy : y ∈ acc
      · rw [if_pos hy] at h
        exact Or.inl h
      · rw [if_neg hy] at h
        rcases List.mem_append.mp h with h | h
        · exact Or.inl h
        · exact Or.inr (by simp at h; simp [h])
    · exact Or.inr (List.mem_cons_of_mem _ h)

theorem mem_uniqKeepFirst (l : List String) (x : String) (h : x ∈ uniqKeepFirst l) :
    x ∈ l := by
  rcases mem_uniqKeepFirst_aux l [] x h with h' | h'
  · simp at h'
  · exact h'

/-- C7: every allow-list name is resolved through the alias table; a missing
or empty allow-list, or one resolving to no registry tool, falls back to the
full five-tool registry; the advertised set is always a non-empty subset of
the registry. -/
theorem restrict_tools_spec :
    (normalizeAllowedToolName "read" = some "read_file" ∧
     normalizeAllowedToolName "write" = some "write_file" ∧
     normalizeAllowedToolName "edit" = some "write_file" ∧
     normalizeAllowedToolName "ls" = some "list_dir" ∧
     normalizeAllowedToolName "list" = some "list_dir" ∧
     normalizeAllowedToolName "glob" = some "glob" ∧
     normalizeAllowedToolName "search" = some "glob" ∧
     normalizeAllowedToolName "bash" = some "run_shell" ∧
     normalizeAllowedToolName "shell" = some "run_shell" ∧
     normalizeAllowedToolName "terminal" = some "run_shell") ∧
    restrictTools none = tools ∧
    restrictTools (some []) = tools ∧
    (∀ l : List String,
      (∀ n ∈ l.filterMap normalizeAllowedToolName,
        tools.find? (fun t => t.name = n) = none) →
      restrictTools (some l) = tools) ∧
    (∀ al, restrictTools al ≠ [] ∧ ∀ t ∈ restrictTools al, t ∈ tools) := by
  refine ⟨by decide, rfl, rfl, ?_, ?_⟩
  · intro l hnone
    unfold restrictTools
    by_cases hl : l.isEmpty
    · simp [hl]
    · have hav : (uniqKeepFirst (l.filterMap normalizeAllowedToolName)).filterMap
          (fun n => tools.find? (fun t => t.name = n)) = [] := by
        rw [List.filterMap_eq_nil_iff]
        intro n hn
        exact hnone n (mem_uniqKeepFirst _ n hn)
      simp [hl, hav]
  · intro al
    match al with
    | none => exact ⟨by decide, fun t ht => ht⟩
    | some l =>
      unfold restrictTools
      by_cases hl : l.isEmpty
      · simp only [hl, if_true]
        exact ⟨by decide, fun t ht => ht⟩
      · simp only [hl, if_false]
        by_cases hav : ((uniqKeepFirst (l.filterMap normalizeAllowedToolName)).filterMap
            (fun n => tools.find? (fun t => t.name = n))).isEmpty
        · simp only [hav, if_true]
          exact ⟨by decide, fun t ht => ht⟩
        · simp only [hav, if_false]
          refine ⟨by simpa [List.isEmpty_iff] using hav, fun t ht => ?_⟩
          obtain ⟨n, _, hfind⟩ := List.mem_filterMap.mp ht
          exact List.mem_of_find?_eq_some hfind

theorem restrict_tools_spec_witness :
    restrictTools (some ["frobnicate"]) = tools :=
  restrict_tools_spec.2.2.2.1 ["frobnicate"] (by decide)

/-! Remote Router reply handling (source: `extractFirstJsonObject` and the
tail of `routeWithClaude`).  `JSON.parse` is a platform primitive and enters
the model as an explicit `parse` oracle returning an optional JSON value
(`none` models a parse exception). -/

inductive Json where
  | null
  | bool (b : Bool)
  | num (q : ℚ)
  | str (s : String)
  | arr (elems : List Json)
  | obj (fields : List (String × Json))

/-- JavaScript truthiness of a parsed JSON value. -/
def jsTruthy : Json → Bool
  | .null => false
  | .bool b => b
  | .num q => decide (q ≠ 0)
  | .str s => s ≠ ""
  | .arr _ => true
  | .obj _ => true

/-- JavaScript property access `j.k` on a parsed JSON value (`none` models
`undefined`). -/
def Json.getField : Json → String → Option Json
  | .obj fields, k => (fields.find? (fun p => p.1 = k)).map (fun p => p.2)
  | _, _ => none

/-- Model of JavaScript `String(x)` on a parsed JSON value.  Rendering of
numbers, arrays and objects is approximated (no claim depends on it); strings
and booleans are exact. -/
def jsToString : Json → String
  | .null => "null"
  | .bool b => if b then "true" else "false"
  | .num q => toString q
  | .str s => s
  | .arr _ => ""
  | .obj _ => "[object Object]"

def lbrace : Char := Char.ofNat 123

def rbrace : Char := Char.ofNat 125

/-- The scan of the source loop in `extractFirstJsonObject`, starting at the
first opening brace: track brace depth and return the raw slice up to the
character that brings the depth back to zero. -/
def braceScan : List Char → Int → List Char → Option String
  | [], _, _ => none
  | ch :: rest, depth, acc =>
    if ch = lbrace then braceScan rest (depth + 1) (acc ++ [ch])
    else if ch = rbrace then
      if depth - 1 = 0 then some (String.mk (acc ++ [ch]))
      else braceScan rest (depth - 1) (acc ++ [ch])
    else braceScan rest depth (acc ++ [ch])

/-- Suffix of the text starting at the first opening brace (`s.indexOf`
returning -1 is modelled by `none`). -/
def dropUntilBrace : List Char → Option (List Char)
  | [] => none
  | ch :: rest => if ch = lbrace then some (ch :: rest) else dropUntilBrace rest

/-- Source `extractFirstJsonObject`: find the first balanced top-level brace
slice and parse it; no brace, no balanced slice, or a parse failure all give
`none`. -/
def extractFirstJsonObject (parse : String → Option Json) (text : String) : Option Json :=
  match dropUntilBrace text.toList with
  | none => none
  | some suffix =>
    match braceScan suffix 0 [] with
    | none => none
    | some raw => parse raw

/-- Tail of `routeWithClaude` after the backend call: extract the first JSON
object from the reply text and demand a `selected` array, otherwise report
failure (`none`) to the caller. -/
def routeDecode (parse : String → Option Json) (text : String) : Option RouterDecision :=
  match extractFirstJsonObject parse text with
  | none => none
  | some j =>
    if ¬ jsTruthy j then none
    else
      match j.getField "selected" with
      | some (Json.arr xs) =>
        let selected := ((xs.map jsToString).filter (fun s => s ≠ ""))
        let reasonVal := (j.getField "reason").getD Json.null
        let reason := if jsTruthy reasonVal then jsToString reasonVal else ""
        some ⟨selected, reason⟩
      | _ => none

theorem dropUntilBrace_eq_none (cs : List Char) (h : lbrace ∉ cs) :
    dropUntilBrace cs = none := by
  induction cs with
  | nil => rfl
  | cons ch rest ih =>
    have hch : ch ≠ lbrace := fun he => h (he ▸ List.mem_cons_self ch rest)
    simp only [dropUntilBrace, if_neg hch]
    exact ih (fun hm => h (List.mem_cons_of_mem ch hm))

/-- C6: a reply text without an opening brace, a balanced brace slice that
fails JSON parsing, and a parsed value without a `selected` array all make
the Router return `none` instead of throwing; and whenever the Router
returns `none` while the precision gate is passed and an API key is present,
the coordinator falls back to exactly the single top-ranked shortlist skill
with method `heuristic`. -/
theorem router_degrades_gracefully (parse : String → Option Json) (text : String) :
    (lbrace ∉ text.toList → extractFirstJsonObject parse text = none) ∧
    (∀ suffix raw, dropUntilBrace text.toList = some suffix →
      braceScan suffix 0 [] = some raw → parse raw = none →
      extractFirstJsonObject parse text = none) ∧
    (∀ j, extractFirstJsonObject parse text = some j →
      (∀ xs, j.getField "selected" ≠ some (Json.arr xs)) →
      routeDecode parse text = none) ∧
    (∀ (prompt : String) (skills : List Skill) (apiKey : Option String),
      skills ≠ [] → 12/100 ≤ (rankSkillsForPrompt prompt skills).best →
      truthyKey apiKey = true →
      pickSkillsForPrompt prompt skills apiKey none =
        ⟨((rankSkillsForPrompt prompt skills).topCandidates.map (fun x => x.skill)).take 1,
          none, some .heuristic⟩ ∧
      (((rankSkillsForPrompt prompt skills).topCandidates.map (fun x => x.skill)).take 1).length
        = 1) := by
  refine ⟨?_, ?_, ?_, ?_⟩
  · intro h
    unfold extractFirstJsonObject
    rw [dropUntilBrace_eq_none _ h]
  · intro suffix raw h1 h2 h3
    unfold extractFirstJsonObject
    rw [h1]
    simp [h2, h3]
  · intro j hj hnoarr
    unfold routeDecode
    rw [hj]
    match harr : j.getField "selected" with
    | some (Json.arr xs) => exact absurd harr (hnoarr xs)
    | none => simp [harr]
    | some Json.null => simp [harr]
    | some (Json.bool b) => simp [harr]
    | some (Json.num q) => simp [harr]
    | some (Json.str s) => simp [harr]
    | some (Json.obj fields) => simp [harr]
  · intro prompt skills apiKey hne hbest hkey
    have h1 : skills.isEmpty = false := by simpa [List.isEmpty_iff] using hne
    have htop := topCandidates_ne_nil prompt skills hne hbest
    have h2 : ((rankSkillsForPrompt prompt skills).topCandidates.map
        (fun x => x.skill)).isEmpty = false := by
      simp [List.isEmpty_iff, htop]
    have h3 : ¬ (rankSkillsForPrompt prompt skills).best < 12/100 := not_lt.mpr hbest
    refine ⟨by simp [pickSkillsForPrompt, h1, h2, h3, hkey], ?_⟩
    obtain ⟨x, rest, hx⟩ := List.exists_cons_of_ne_nil htop
    rw [hx]
    rfl

theorem router_degrades_gracefully_witness :
    extractFirstJsonObject (fun _ => some (Json.obj [("selected", Json.arr [])])) "no json here"
      = none ∧
    extractFirstJsonObject (fun _ => none) "x \x7b\x7d y" = none ∧
    routeDecode (fun _ => some (Json.str "oops")) "\x7ba\x7d" = none ∧
    pickSkillsForPrompt "hello world" [⟨"hello", "", "", [], ""⟩] (some "k") none =
      ⟨[⟨"hello", "", "", [], ""⟩], none, some .heuristic⟩ := by
  have c6 := router_degrades_gracefully
  refine ⟨(c6 (fun _ => some (Json.obj [("selected", Json.arr [])])) "no json here").1
      (by decide),
    (c6 (fun _ => none) "x \x7b\x7d y").2.1 (lbrace :: [rbrace, ' ', 'y']) "\x7b\x7d"
      (by decide) (by decide) rfl, ?_, ?_⟩
  · refine (c6 (fun _ => some (Json.str "oops")) "\x7ba\x7d").2.2.1 (Json.str "oops") rfl ?_
    intro xs
    simp [Json.getField]
  · have h := ((c6 (fun _ => none) "").2.2.2 "hello world" [⟨"hello", "", "", [], ""⟩]
      (some "k") (by decide) (by with_unfolding_all decide) (by decide)).1
    rw [h]
    with_unfolding_all decide

/-! Agent Loop (source: `runAgentOnce`, tools-enabled branch).  The LLM
backend is an oracle from the conversation so far to a list of content
blocks; tool execution is an oracle threading an abstract state (this covers
the real `executeTool` as an instance).  The loop of the source
(`for step = 0; step <= maxSteps; step++`) is modelled by recursion on the
number of remaining iterations, and the return sites are distinguished by an
outcome type so that reaching the fall-through return after the loop is a
statable event. -/

inductive ContentBlock where
  | text (t : String)
  | toolUse (id nm : String) (input : ToolInput)
  | other
  deriving DecidableEq, Repr

structure ToolResultBlock where
  tool_use_id : String
  content : String
  is_error : Bool
  deriving DecidableEq, Repr

inductive MsgContent where
  | ofString (s : String)
  | ofBlocks (blocks : List ContentBlock)
  | ofResults (results : List ToolResultBlock)
  deriving DecidableEq, Repr

structure Message where
  role : String
  content : MsgContent
  deriving DecidableEq, Repr

def isToolUse : ContentBlock → Bool
  | .toolUse _ _ _ => true
  | _ => false

/-- Source `extractText`: join the text blocks with newlines. -/
def extractText (blocks : List ContentBlock) : String :=
  String.intercalate "\n"
    (blocks.filterMap (fun b => match b with | .text t => some t | _ => none))

/-- The three return sites of the source loop body, plus the fall-through
return after the loop. -/
inductive AgentOutcome where
  | finished (text : String)
  | stepLimit (text : String) (maxSteps : Nat)
  | fellThrough
  deriving DecidableEq, Repr

def stepLimitNotice (maxSteps : Nat) : String :=
  "[mini-agent] stopped after " ++ toString maxSteps ++
    " tool steps (increase --max-steps if needed)."

/-- The string returned by `runAgentOnce` for each outcome, verbatim from the
source return expressions. -/
def renderOutcome : AgentOutcome → String
  | .finished t => t
  | .stepLimit t maxSteps => (if t ≠ "" then t ++ "\n\n" else "") ++ stepLimitNotice maxSteps
  | .fellThrough => "[mini-agent] unexpected: tool loop ended"

structure AgentRun where
  outcome : AgentOutcome
  backendCalls : Nat
  toolExecs : Nat
  messages : List Message

/-- The source per-step tool loop: run every requested call in order, catch
each failure as an `is_error` tool result. -/
def runToolUses {σ : Type} (execTool : σ → String → ToolInput → σ × Except String String) :
    σ → List ContentBlock → σ × List ToolResultBlock × Nat
  | s, [] => (s, [], 0)
  | s, b :: rest =>
    match b with
    | .toolUse id nm input =>
      let (s', r) := execTool s nm input
      let blockR : ToolResultBlock :=
        match r with
        | .ok out => ⟨id, out, false⟩
        | .error msg => ⟨id, msg, true⟩
      let (s'', rs, n) := runToolUses execTool s' rest
      (s'', blockR :: rs, n + 1)
    | _ => runToolUses execTool s rest

/-- The tools-enabled loop of `runAgentOnce`.  `stepsLeft` counts the
iterations the `for` loop may still perform; the fall-through return after
the loop corresponds to `stepsLeft = 0`. -/
def agentLoop {σ : Type} (backend : List Message → List ContentBlock)
    (execTool : σ → String → ToolInput → σ × Except String String) (maxSteps : Nat) :
    Nat → Nat → List Message → σ → Nat → Nat → AgentRun
  | 0, _, msgs, _, calls, execs => ⟨.fellThrough, calls, execs, msgs⟩
  | stepsLeft + 1, step, msgs, s, calls, execs =>
    let resp := backend msgs
    let msgs1 := msgs ++ [⟨"assistant", .ofBlocks resp⟩]
    let toolUses := resp.filter isToolUse
    if toolUses.isEmpty then ⟨.finished (extractText resp), calls + 1, execs, msgs1⟩
    else if step = maxSteps then
      ⟨.stepLimit (extractText resp) maxSteps, calls + 1, execs, msgs1⟩
    else
      let (s', results, n) := runToolUses execTool s toolUses
      agentLoop backend execTool maxSteps stepsLeft (step + 1)
        (msgs1 ++ [⟨"user", .ofResults results⟩]) s' (calls + 1) (execs + n)

/-- Source `runAgentOnce` with `enableTools` set: start at step 0 with the
user prompt as the only message. -/
def runAgentToolLoop {σ : Type} (backend : List Message → List ContentBlock)
    (execTool : σ → String → ToolInput → σ × Except String String) (s0 : σ)
    (maxSteps : Nat) (prompt : String) : AgentRun :=
  agentLoop backend execTool maxSteps (maxSteps + 1) 0 [⟨"user", .ofString prompt⟩] s0 0 0

theorem agentLoop_calls_le {σ : Type} (backend : List Message → List ContentBlock)
    (execTool : σ → String → ToolInput → σ × Except String String) (maxSteps : Nat) :
    ∀ (stepsLeft step : Nat) (msgs : List Message) (s : σ) (calls execs : Nat),
      (agentLoop backend execTool maxSteps stepsLeft step msgs s calls execs).backendCalls ≤
        calls + stepsLeft := by
  intro stepsLeft
  induction stepsLeft with
  | zero => intro step msgs s calls execs; simp [agentLoop]
  | succ n ih =>
    intro step msgs s calls execs
    rw [agentLoop]
    by_cases h1 : ((backend msgs).filter isToolUse).isEmpty
    · simp [h1]
    · by_cases h2 : step = maxSteps
      · simp [h1, h2]
      · simp only [h1, Bool.false_eq_true, if_false, if_neg h2]
        refine le_trans (ih _ _ _ _ _) (by omega)

theorem agentLoop_no_fellThrough {σ : Type} (backend : List Message → List ContentBlock)
    (execTool : σ → String → ToolInput → σ × Except String String) (maxSteps : Nat) :
    ∀ (stepsLeft step : Nat) (msgs : List Message) (s : σ) (calls execs : Nat),
      step + stepsLeft = maxSteps + 1 → step ≤ maxSteps →
      (agentLoop backend execTool maxSteps stepsLeft step msgs s calls execs).outcome ≠
        .fellThrough := by
  intro stepsLeft
  induction stepsLeft with
  | zero => intro step msgs s calls execs hinv hb; omega
  | succ n ih =>
    intro step msgs s calls execs hinv hb
    rw [agentLoop]
    by_cases h1 : ((backend msgs).filter isToolUse).isEmpty
    · simp [h1]
    · by_cases h2 : step = maxSteps
      · simp [h1, h2]
      · simp only [h1, Bool.false_eq_true, if_false, if_neg h2]
        exact ih (step + 1) _ _ _ _ (by omega) (by omega)

/-- C10: with tools enabled the loop always returns from one of the two
return sites inside the loop body, for every backend, tool executor, step
budget and prompt; the fall-through return after the loop (the
"unexpected: tool loop ended" string) is unreachable. -/
theorem tool_loop_never_falls_through {σ : Type} (backend : List Message → List ContentBlock)
    (execTool : σ → String → ToolInput → σ × Except String String) (s0 : σ)
    (maxSteps : Nat) (prompt : String) :
    (runAgentToolLoop backend execTool s0 maxSteps prompt).outcome ≠ .fellThrough := by
  unfold runAgentToolLoop
  exact agentLoop_no_fellThrough backend execTool maxSteps (maxSteps + 1) 0 _ s0 0 0
    (by omega) (by omega)

/-- C2: with `maxSteps = 0` the loop makes exactly one backend call; if that
response requests a tool, it terminates at once with the step-limit outcome,
zero tool executions, and the rendered answer is the response text (if any)
followed by the fixed notice naming the configured limit; and for every
`maxSteps` the loop makes at most `maxSteps + 1` backend calls. -/
theorem step_budget_spec {σ : Type} (backend : List Message → List ContentBlock)
    (execTool : σ → String → ToolInput → σ × Except String String) (s0 : σ)
    (prompt : String) :
    (runAgentToolLoop backend execTool s0 0 prompt).backendCalls = 1 ∧
    (((backend [⟨"user", .ofString prompt⟩]).filter isToolUse) ≠ [] →
      (runAgentToolLoop backend execTool s0 0 prompt).toolExecs = 0 ∧
      (runAgentToolLoop backend execTool s0 0 prompt).outcome =
        .stepLimit (extractText (backend [⟨"user", .ofString prompt⟩])) 0 ∧
      renderOutcome (runAgentToolLoop backend execTool s0 0 prompt).outcome =
        (if extractText (backend [⟨"user", .ofString prompt⟩]) ≠ "" then
          extractText (backend [⟨"user", .ofString prompt⟩]) ++ "\n\n" else "") ++
          stepLimitNotice 0) ∧
    (∀ maxSteps : Nat,
      (runAgentToolLoop backend execTool s0 maxSteps prompt).backendCalls ≤ maxSteps + 1) := by
  refine ⟨?_, ?_, ?_⟩
  · unfold runAgentToolLoop
    rw [agentLoop]
    by_cases h1 : ((backend [⟨"user", .ofString prompt⟩]).filter isToolUse).isEmpty
    · simp [h1]
    · simp [h1]
  · intro hne
    have h1 : ((backend [⟨"user", .ofString prompt⟩]).filter isToolUse).isEmpty = false := by
      simpa [List.isEmpty_iff] using hne
    unfold runAgentToolLoop
    rw [agentLoop]
    refine ⟨by simp [h1], by simp [h1], by simp [h1, renderOutcome]⟩
  · intro maxSteps
    unfold runAgentToolLoop
    simpa using agentLoop_calls_le backend execTool maxSteps (maxSteps + 1) 0
      [⟨"user", .ofString prompt⟩] s0 0 0

theorem step_budget_spec_witness :
    (runAgentToolLoop (fun _ => [ContentBlock.toolUse "t1" "read_file" { path := some "a" }])
        (fun (s : Unit) _ _ => (s, Except.ok "")) () 0 "hi").backendCalls = 1 ∧
    (runAgentToolLoop (fun _ => [ContentBlock.toolUse "t1" "read_file" { path := some "a" }])
        (fun (s : Unit) _ _ => (s, Except.ok "")) () 0 "hi").toolExecs = 0 ∧
    (runAgentToolLoop (fun _ => [ContentBlock.toolUse "t1" "read_file" { path := some "a" }])
        (fun (s : Unit) _ _ => (s, Except.ok "")) () 0 "hi").outcome = .stepLimit "" 0 ∧
    renderOutcome
      (runAgentToolLoop (fun _ => [ContentBlock.toolUse "t1" "read_file" { path := some "a" }])
        (fun (s : Unit) _ _ => (s, Except.ok "")) () 0 "hi").outcome = stepLimitNotice 0 := by
  have h := step_budget_spec
    (fun _ => [ContentBlock.toolUse "t1" "read_file" { path := some "a" }])
    (fun (s : Unit) _ _ => (s, Except.ok "")) () "hi"
  have h2 := h.2.1 (by decide)
  exact ⟨h.1, h2.1, by rw [h2.2.1]; decide, by rw [h2.2.2]; decide⟩

theorem tool_loop_never_falls_through_witness :
    (runAgentToolLoop (fun _ => [ContentBlock.text "done"])
        (fun (s : Unit) _ _ => (s, Except.ok "")) () 3 "hi").outcome ≠
      AgentOutcome.fellThrough :=
  tool_loop_never_falls_through (fun _ => [ContentBlock.text "done"])
    (fun (s : Unit) _ _ => (s, Except.ok "")) () 3 "hi"

end MiniAgent
